import Mathlib

/-!
Verification development for the Microsoft-Ajax ("delta stream") engine of
visyerres_sgdf_woob (`visyerres_sgdf_woob/mshtml.py`).

The Python code is shallowly embedded: pure helpers become Lean functions,
Python exceptions become an explicit `PyExc` error type threaded through
`Except`, the lxml element tree becomes a `Elem`/`ElemList` mutual inductive,
and the character-stream parsing loop of `MicrosoftAjaxResponse.fromstream`
becomes a fuel-indexed loop (the fuel is `length + 1`, which is always
sufficient because every iteration consumes at least one character).

Library collaborators that are not part of the repository are modelled as
parameters or documented approximations:
 * `urllib` percent-decoding (`_unquote`) is a `String → String` parameter of
   the parser;
 * lxml HTML snippet parsing (`_parse_html` of `<html><body>...</body></html>`
   followed by taking the body element) is a `String → Option Elem` parameter
   of the document patcher (`none` models an `XMLSyntaxError`);
 * finite Python floats are modelled as exact rationals (IEEE rounding and
   overflow of finite literals to infinity are not modelled; no theorem below
   depends on the rounded value of a finite literal).
-/

set_option autoImplicit false

/-- Decidable equality on Except, used to evaluate the embedding on concrete
inputs. -/
instance instDecEqExcept {ε α : Type} [DecidableEq ε] [DecidableEq α] :
    DecidableEq (Except ε α) := fun a b =>
  match a, b with
  | Except.ok x, Except.ok y => decidable_of_iff (x = y) (by simp)
  | Except.ok _, Except.error _ => Decidable.isFalse (by simp)
  | Except.error _, Except.ok _ => Decidable.isFalse (by simp)
  | Except.error x, Except.error y => decidable_of_iff (x = y) (by simp)

/-- Python exceptions that can escape the embedded code.  `framing` models the
repository's own `_MicrosoftAjaxResponseParsingError` (column, description);
the other constructors model built-in Python exceptions escaping unclassified. -/
inductive PyExc where
  | framing (column : Nat) (detail : String)
  | valueError
  | typeError
  | indexError
  | overflowError
deriving DecidableEq, Repr

/-- Value of a Python float: an exact rational for finite values, plus the
infinities and the not-a-number value. -/
inductive PyFloat where
  | finite (q : ℚ)
  | inf
  | ninf
  | nan
deriving DecidableEq, Repr

/-- Result of `parseinvariantnumber`: a Python int or a Python float (after
the integral-normalisation step, finite floats with denominator 1 have been
turned into ints). -/
inductive PyNum where
  | i (z : ℤ)
  | f (q : ℚ)
  | inf
  | ninf
  | nan
deriving DecidableEq, Repr

/-- Characters stripped by Python str.strip with no argument (ASCII range). -/
def isPyWs (c : Char) : Bool :=
  c = ' ' || c = '\t' || c = '\n' || c = '\r' || c = '\x0b' || c = '\x0c'

/-- Python str.strip on a character list. -/
def stripWsL (l : List Char) : List Char :=
  ((l.dropWhile isPyWs).reverse.dropWhile isPyWs).reverse

def isDigit10 (c : Char) : Bool :=
  decide (48 ≤ c.toNat ∧ c.toNat ≤ 57)

def digitVal10 (c : Char) : Nat :=
  c.toNat - 48

/-- Consume a run of decimal digits, allowing a single underscore between two
digits as Python numeric literals do.  Returns the accumulated value, the
number of digits consumed and the unconsumed rest. -/
def digitsLoop10 : Nat → Nat → List Char → Nat × Nat × List Char
  | acc, cnt, [] => (acc, cnt, [])
  | acc, cnt, '_' :: c :: r =>
    if isDigit10 c then digitsLoop10 (acc * 10 + digitVal10 c) (cnt + 1) r
    else (acc, cnt, '_' :: c :: r)
  | acc, cnt, c :: r =>
    if isDigit10 c then digitsLoop10 (acc * 10 + digitVal10 c) (cnt + 1) r
    else (acc, cnt, c :: r)

/-- Model of Python int(s) for base 10: strip whitespace, optional sign, then
a nonempty run of digits (with Python underscore grouping).  Returns `none`
when Python raises ValueError. -/
def pyIntOfDec (l : List Char) : Option Int :=
  let l := stripWsL l
  let (neg, l) :=
    match l with
    | '+' :: r => (false, r)
    | '-' :: r => (true, r)
    | _ => (false, l)
  match l with
  | c :: r =>
    if isDigit10 c then
      let (v, _, rest) := digitsLoop10 (digitVal10 c) 1 r
      if rest = [] then some (if neg then -(v : ℤ) else (v : ℤ)) else none
    else none
  | [] => none

/-- Value of one hexadecimal digit character, if it is one (both cases
accepted, as Python int with base 16 does). -/
def hexDigitValue (c : Char) : Option Nat :=
  let n := c.toNat
  if 48 ≤ n ∧ n ≤ 57 then some (n - 48)
  else if 97 ≤ n ∧ n ≤ 102 then some (n - 87)
  else if 65 ≤ n ∧ n ≤ 70 then some (n - 55)
  else none

/-- Consume a run of hexadecimal digits with underscore grouping. -/
def digitsLoop16 : Nat → Nat → List Char → Nat × Nat × List Char
  | acc, cnt, [] => (acc, cnt, [])
  | acc, cnt, '_' :: c :: r =>
    match hexDigitValue c with
    | some v => digitsLoop16 (acc * 16 + v) (cnt + 1) r
    | none => (acc, cnt, '_' :: c :: r)
  | acc, cnt, c :: r =>
    match hexDigitValue c with
    | some v => digitsLoop16 (acc * 16 + v) (cnt + 1) r
    | none => (acc, cnt, c :: r)

/-- Model of Python int(s, 16): strip whitespace, optional sign, optional
0x/0X prefix (an underscore may directly follow the prefix), then a nonempty
run of hex digits. -/
def pyIntBase16 (l : List Char) : Option Int :=
  let l := stripWsL l
  let (neg, l) :=
    match l with
    | '+' :: r => (false, r)
    | '-' :: r => (true, r)
    | _ => (false, l)
  let l :=
    match l with
    | '0' :: 'x' :: r => (match r with | '_' :: r2 => r2 | _ => r)
    | '0' :: 'X' :: r => (match r with | '_' :: r2 => r2 | _ => r)
    | _ => l
  match l with
  | c :: r =>
    match hexDigitValue c with
    | some v =>
      let (w, _, rest) := digitsLoop16 v 1 r
      if rest = [] then some (if neg then -(w : ℤ) else (w : ℤ)) else none
    | none => none
  | [] => none

/-- Parse the optional exponent part of a float literal; the input is what
remains after the mantissa.  Returns the exponent and requires the input to be
fully consumed. -/
def pyFloatExp : List Char → Option Int
  | [] => some 0
  | e :: r =>
    if e = 'e' || e = 'E' then
      let (eneg, r) :=
        match r with
        | '+' :: r2 => (false, r2)
        | '-' :: r2 => (true, r2)
        | _ => (false, r)
      match r with
      | c :: r2 =>
        if isDigit10 c then
          let (v, _, rest) := digitsLoop10 (digitVal10 c) 1 r2
          if rest = [] then some (if eneg then -(v : ℤ) else (v : ℤ)) else none
        else none
      | [] => none
    else none

/-- Model of Python float(s) on a character list: strip whitespace, optional
sign, then either a case-insensitive infinity / nan literal or a decimal
literal digits [. digits] [exponent].  Finite values are represented exactly
as rationals.  `none` models ValueError. -/
def pyFloatOfChars (l : List Char) : Option PyFloat :=
  let l := stripWsL l
  let (neg, l) :=
    match l with
    | '+' :: r => (false, r)
    | '-' :: r => (true, r)
    | _ => (false, l)
  let lower := l.map Char.toLower
  if lower = [ 'i', 'n', 'f'] ∨ lower = [ 'i', 'n', 'f', 'i', 'n', 'i', 't', 'y'] then
    some (if neg then PyFloat.ninf else PyFloat.inf)
  else if lower = [ 'n', 'a', 'n'] then
    some PyFloat.nan
  else
    let (iv, icnt, r1) :=
      match l with
      | c :: r => if isDigit10 c then digitsLoop10 (digitVal10 c) 1 r else (0, 0, l)
      | [] => (0, 0, l)
    let (fv, fcnt, r3) :=
      match r1 with
      | '.' :: r2 =>
        (match r2 with
         | c :: r => if isDigit10 c then digitsLoop10 (digitVal10 c) 1 r else (0, 0, r2)
         | [] => (0, 0, r2))
      | _ => (0, 0, r1)
    if icnt + fcnt = 0 then none
    else
      match pyFloatExp r3 with
      | none => none
      | some ex =>
        let m : ℤ := (iv * 10 ^ fcnt + fv : ℕ)
        let m : ℤ := if neg then -m else m
        some (PyFloat.finite ((m : ℚ) * (10 : ℚ) ^ (ex - (fcnt : ℤ))))

/-- Embedding of parseinvariantnumber (defined inside
MicrosoftAjaxResponse.fromstream).  The source strips the input, returns the
infinities for the exact +infinity / -infinity literals, tries a hexadecimal
parse for a 0x-prefixed token with failures falling through, then parses a
float (returning nan on failure) and finally normalises integral floats with
x == int(x).  That last step calls int(x), which raises OverflowError when x
is an infinity and ValueError when x is nan; those exceptions are not caught
by the source, so they escape as the corresponding `PyExc`. -/
def parseinvariantnumber (x : String) : Except PyExc PyNum :=
  let l := stripWsL x.data
  if l = ('+' :: ('i' :: ('n' :: ('f' :: ('i' :: ('n' :: ('i' :: ('t' :: ('y' :: []))))))))) then
    Except.ok PyNum.inf
  else if l = ('-' :: ('i' :: ('n' :: ('f' :: ('i' :: ('n' :: ('i' :: ('t' :: ('y' :: []))))))))) then
    Except.ok PyNum.ninf
  else
    let hexAttempt := if l.take 2 = [ '0', 'x'] then pyIntBase16 (l.drop 2) else none
    match hexAttempt with
    | some z => Except.ok (PyNum.i z)
    | none =>
      match pyFloatOfChars l with
      | none => Except.ok PyNum.nan
      | some (PyFloat.finite q) =>
        if q.den = 1 then Except.ok (PyNum.i q.num) else Except.ok (PyNum.f q)
      | some PyFloat.inf => Except.error PyExc.overflowError
      | some PyFloat.ninf => Except.error PyExc.overflowError
      | some PyFloat.nan => Except.error PyExc.valueError

/-- Get if the stored error code comparison version is at least 4; embeds the
Python condition version is not None and version >= 4 used when storing a
pageRedirect URL (infinity compares greater than 4, nan compares false). -/
def versionGe4 : Option PyFloat → Bool
  | none => false
  | some (PyFloat.finite q) => decide ((4 : ℚ) ≤ q)
  | some PyFloat.inf => true
  | some PyFloat.ninf => false
  | some PyFloat.nan => false

/-- State of MicrosoftAjaxResponse.fromstream, and also the constructed
MicrosoftAjaxResponse object itself (the constructor merely copies every
accumulator into the object).  Field names follow the source. -/
structure MicrosoftAjaxResponse where
  version : Option PyFloat := none
  redirectUrl : Option String := none
  error : Option (PyNum × String) := none
  pageTitle : Option String := none
  focus : Option String := none
  updatePanelNodes : List (String × String) := []
  hiddenFieldNodes : List (String × String) := []
  arrayDeclarationNodes : List (String × String) := []
  scriptBlockNodes : List (String × List String) := []
  scriptStartupNodes : List (String × String) := []
  expandoNodes : List (String × String) := []
  onSubmitNodes : List (String × String) := []
  dataItemNodes : List (String × String) := []
  dataItemJsonNodes : List (String × String) := []
  scriptDisposeNodes : List (String × String) := []
  asyncPostBackControlIDsNode : Option (String × String) := none
  postBackControlIDsNode : Option (String × String) := none
  updatePanelIDsNode : Option (String × String) := none
  asyncPostBackTimeoutNode : Option (String × String) := none
  childUpdatePanelIDsNode : Option (String × String) := none
  panelsToRefreshNode : Option (String × String) := none
  formActionNode : Option (String × String) := none
deriving DecidableEq, Repr

/-- Derived accessor: the error code, if any (property errorCode). -/
def MicrosoftAjaxResponse.errorCode (r : MicrosoftAjaxResponse) : Option PyNum :=
  r.error.map Prod.fst

/-- Derived accessor: the error message, if any (property errorMessage). -/
def MicrosoftAjaxResponse.errorMessage (r : MicrosoftAjaxResponse) : Option String :=
  r.error.map Prod.snd

/-- Dispatch of one parsed record onto the parsing state; embeds the long
if/elif chain at the end of the fromstream reading loop.  `unquote` is the
urllib percent-decoding collaborator.  `typeCol` is the column of the type
field, computed by the caller before the buffer was advanced.  Failure cases:
 * a version record runs float(content), whose ValueError is not caught;
 * an error record runs parseinvariantnumber on the name field, whose
   exceptions are not caught;
 * a fallbackScript record with no previous scriptBlock record evaluates
   scriptBlockNodes[-1] on an empty list, raising IndexError (the source
   guards this statement with an except KeyError clause, which does not catch
   IndexError);
 * an unknown type raises the framing error at the type column. -/
def handleRecord (unquote : String → String) (st : MicrosoftAjaxResponse)
    (ctype cname content : String) (typeCol : Nat) :
    Except PyExc MicrosoftAjaxResponse :=
  if ctype = "#" then
    match pyFloatOfChars content.data with
    | none => Except.error PyExc.valueError
    | some f => Except.ok { st with version := some f }
  else if ctype = "pageRedirect" then
    if st.redirectUrl.isNone then
      let c := if versionGe4 st.version then unquote content else content
      Except.ok { st with redirectUrl := some c }
    else Except.ok st
  else if ctype = "error" then
    if st.error.isNone then
      match parseinvariantnumber cname with
      | Except.error e => Except.error e
      | Except.ok code => Except.ok { st with error := some (code, content) }
    else Except.ok st
  else if ctype = "pageTitle" then Except.ok { st with pageTitle := some content }
  else if ctype = "focus" then Except.ok { st with focus := some content }
  else if ctype = "updatePanel" then
    Except.ok { st with updatePanelNodes := st.updatePanelNodes ++ [(cname, content)] }
  else if ctype = "hiddenField" then
    Except.ok { st with hiddenFieldNodes := st.hiddenFieldNodes ++ [(cname, content)] }
  else if ctype = "arrayDeclaration" then
    Except.ok { st with arrayDeclarationNodes := st.arrayDeclarationNodes ++ [(cname, content)] }
  else if ctype = "scriptBlock" then
    Except.ok { st with scriptBlockNodes := st.scriptBlockNodes ++ [(cname, [content])] }
  else if ctype = "fallbackScript" then
    match st.scriptBlockNodes.getLast? with
    | none => Except.error PyExc.indexError
    | some (n, paths) =>
      Except.ok { st with scriptBlockNodes := st.scriptBlockNodes.dropLast ++ [(n, paths ++ [content])] }
  else if ctype = "scriptStartupBlock" then
    Except.ok { st with scriptStartupNodes := st.scriptStartupNodes ++ [(cname, content)] }
  else if ctype = "expando" then
    Except.ok { st with expandoNodes := st.expandoNodes ++ [(cname, content)] }
  else if ctype = "onSubmit" then
    Except.ok { st with onSubmitNodes := st.onSubmitNodes ++ [(cname, content)] }
  else if ctype = "asyncPostBackControlIDs" then
    Except.ok { st with asyncPostBackControlIDsNode := some (cname, content) }
  else if ctype = "postBackControlIDs" then
    Except.ok { st with postBackControlIDsNode := some (cname, content) }
  else if ctype = "updatePanelIDs" then
    Except.ok { st with updatePanelIDsNode := some (cname, content) }
  else if ctype = "asyncPostBackTimeout" then
    Except.ok { st with asyncPostBackTimeoutNode := some (cname, content) }
  else if ctype = "childUpdatePanelIDs" then
    Except.ok { st with childUpdatePanelIDsNode := some (cname, content) }
  else if ctype = "panelsToRefreshIDs" then
    Except.ok { st with panelsToRefreshNode := some (cname, content) }
  else if ctype = "formAction" then
    Except.ok { st with formActionNode := some (cname, content) }
  else if ctype = "dataItem" then
    Except.ok { st with dataItemNodes := st.dataItemNodes ++ [(cname, content)] }
  else if ctype = "dataItemJson" then
    Except.ok { st with dataItemJsonNodes := st.dataItemJsonNodes ++ [(cname, content)] }
  else if ctype = "scriptDispose" then
    Except.ok { st with scriptDisposeNodes := st.scriptDisposeNodes ++ [(cname, content)] }
  else
    Except.error (PyExc.framing typeCol ("unknown ajax fragment type " ++ ctype))

/-- Zero-based indices of the pipe separators in a character list, offset by
i; the reading loop looks for the first three of them. -/
def pipeIdxs : List Char → Nat → List Nat
  | [], _ => []
  | c :: cs, i => if c = '|' then i :: pipeIdxs cs (i + 1) else pipeIdxs cs (i + 1)

/-- Outcome of one turn of the fromstream reading loop. -/
inductive StepResult where
  | done (r : MicrosoftAjaxResponse)
  | fail (e : PyExc)
  | cont (rest : List Char) (col : Nat) (st : MicrosoftAjaxResponse)
deriving Repr

/-- One turn of the fromstream reading loop on the whole remaining input
(fromtext wraps the full response text in a StringIO, so the chunked read(512)
calls of the source always eventually deliver the rest of the text; the
buffer and column bookkeeping below is exactly the source's, with the stream
already fully read into the buffer).  The loop looks for the first three pipe
separators: if the remaining characters hold fewer than three and are all
line breaks, the stream ends cleanly, otherwise the response is unterminated.
It then splits the header into the length, type and name fields, reads the
length-delimited content, demands a pipe or end of stream after the content,
and dispatches the record. -/
def parseStep (unquote : String → String) (buf : List Char) (col : Nat)
    (st : MicrosoftAjaxResponse) : StepResult :=
  match pipeIdxs buf 0 with
  | p1 :: p2 :: p3 :: _ =>
    let lenChars := buf.take p1
    let ctype := String.mk ((buf.drop (p1 + 1)).take (p2 - p1 - 1))
    let cname := String.mk ((buf.drop (p2 + 1)).take (p3 - p2 - 1))
    let typeCol := col + p1 + 1
    let rest0 := buf.drop (p3 + 1)
    let col1 := col + p3 + 1
    match pyIntOfDec lenChars with
    | none =>
      StepResult.fail (PyExc.framing (col1 + 1) ("invalid content length " ++ String.mk lenChars))
    | some z =>
      if z < 0 then
        StepResult.fail (PyExc.framing (col1 + 1) ("invalid content length " ++ String.mk lenChars))
      else
        let clen := z.toNat
        if rest0.length < clen then
          StepResult.fail (PyExc.framing col1 "premature end of stream")
        else
          let content := String.mk (rest0.take clen)
          let proceed : List Char → StepResult := fun tl =>
            match handleRecord unquote st ctype cname content typeCol with
            | Except.ok st2 => StepResult.cont tl (col1 + clen + 1) st2
            | Except.error e => StepResult.fail e
          match rest0.drop clen with
          | [] => proceed []
          | c :: tl =>
            if c = '|' then proceed tl
            else
              StepResult.fail
                (PyExc.framing (col1 + clen) "expected pipe or end of stream at end of content")
  | _ =>
    if buf.all (fun c => c = '\n' || c = '\r') then StepResult.done st
    else StepResult.fail (PyExc.framing col "unterminated response")

/-- The fromstream reading loop.  The fuel argument only serves to make the
recursion structural: `MicrosoftAjaxResponse.fromchars` supplies length + 1
fuel, and every loop turn consumes at least one character, so the zero-fuel
branch is unreachable from `fromchars` (see `parseLoop_fuel`). -/
def parseLoop (unquote : String → String) :
    Nat → List Char → Nat → MicrosoftAjaxResponse → Except PyExc MicrosoftAjaxResponse
  | 0, _, col, _ => Except.error (PyExc.framing col "unterminated response")
  | fuel + 1, buf, col, st =>
    match parseStep unquote buf col st with
    | StepResult.done r => Except.ok r
    | StepResult.fail e => Except.error e
    | StepResult.cont rest col2 st2 => parseLoop unquote fuel rest col2 st2

/-- Embedding of MicrosoftAjaxResponse.fromstream on a fully available
character list (the reading loop starts at column 1 with empty state). -/
def MicrosoftAjaxResponse.fromchars (unquote : String → String) (buf : List Char) :
    Except PyExc MicrosoftAjaxResponse :=
  parseLoop unquote (buf.length + 1) buf 1 {}

/-- Embedding of MicrosoftAjaxResponse.fromtext. -/
def MicrosoftAjaxResponse.fromtext (unquote : String → String) (text : String) :
    Except PyExc MicrosoftAjaxResponse :=
  MicrosoftAjaxResponse.fromchars unquote text.data

/-- Attribute lookup in an lxml attribute dictionary, modelled as an ordered
association list with unique keys (element.get / element.attrib access). -/
def attrLookup : List (String × String) → String → Option String
  | [], _ => none
  | (k, v) :: r, key => if k = key then some v else attrLookup r key

/-- Attribute update (element.attrib[k] = v): replace in place when the key
exists, append otherwise, preserving insertion order like a Python dict. -/
def attrStore : List (String × String) → String → String → List (String × String)
  | [], k, v => [(k, v)]
  | (k0, v0) :: r, k, v =>
    if k0 = k then (k0, v) :: r else (k0, v0) :: attrStore r k v

/-- Attribute removal (del element.attrib[k]). -/
def attrRemove : List (String × String) → String → List (String × String)
  | [], _ => []
  | (k0, v0) :: r, k => if k0 = k then attrRemove r k else (k0, v0) :: attrRemove r k

/- The lxml element tree: tag, attribute dictionary, text and children.  The
child sequence is a dedicated mutual inductive so that every tree function is
a plain structural recursion (and therefore evaluates inside the kernel). -/
mutual
inductive Elem where
  | mk (tag : String) (attrib : List (String × String)) (text : Option String)
       (children : ElemList)
inductive ElemList where
  | nil
  | cons (head : Elem) (tail : ElemList)
end

def Elem.tag : Elem → String
  | Elem.mk t _ _ _ => t

def Elem.attrib : Elem → List (String × String)
  | Elem.mk _ a _ _ => a

def Elem.text : Elem → Option String
  | Elem.mk _ _ x _ => x

def Elem.children : Elem → ElemList
  | Elem.mk _ _ _ cs => cs

/-- element.get(k): attribute lookup on an element. -/
def attrGet (e : Elem) (k : String) : Option String :=
  attrLookup e.attrib k

/-- Truthiness of element.get(k): the attribute exists and is nonempty. -/
def truthyAttr (e : Elem) (k : String) : Bool :=
  match attrGet e k with
  | some s => ¬(s = "")
  | none => false

/-- Presence test k in element.attrib. -/
def attrHas (e : Elem) (k : String) : Bool :=
  (attrGet e k).isSome

/-- element.attrib[k] = v on an element. -/
def setAttrE (e : Elem) (k v : String) : Elem :=
  Elem.mk e.tag (attrStore e.attrib k v) e.text e.children

/-- del element.attrib[k] on an element. -/
def delAttrE (e : Elem) (k : String) : Elem :=
  Elem.mk e.tag (attrRemove e.attrib k) e.text e.children

def ElemList.append : ElemList → ElemList → ElemList
  | ElemList.nil, l => l
  | ElemList.cons e es, l => ElemList.cons e (ElemList.append es l)

/-- element.append(child): add a child at the end. -/
def appendChildE (e : Elem) (child : Elem) : Elem :=
  Elem.mk e.tag e.attrib e.text (ElemList.append e.children (ElemList.cons child ElemList.nil))

/- All elements of the tree in document (preorder) order, the element itself
included; this is the order an absolute wildcard xpath enumerates. -/
mutual
def allNodes : Elem → List Elem
  | Elem.mk t a x cs => Elem.mk t a x cs :: allNodesL cs
def allNodesL : ElemList → List Elem
  | ElemList.nil => []
  | ElemList.cons e es => allNodes e ++ allNodesL es
end

/- First element of the tree satisfying the predicate, in document order;
this is xpath(...)[0] for a predicate-shaped absolute xpath. -/
mutual
def findE (p : Elem → Bool) : Elem → Option Elem
  | Elem.mk t a x cs =>
    if p (Elem.mk t a x cs) then some (Elem.mk t a x cs) else findL p cs
def findL (p : Elem → Bool) : ElemList → Option Elem
  | ElemList.nil => none
  | ElemList.cons e es =>
    match findE p e with
    | some r => some r
    | none => findL p es
end

/- In-place update of the first element of the tree satisfying the
predicate, in document order; the boolean reports whether a matching element
was found.  This models mutating the single element object returned by an
xpath query. -/
mutual
def updE (p : Elem → Bool) (f : Elem → Elem) : Elem → Bool × Elem
  | Elem.mk t a x cs =>
    if p (Elem.mk t a x cs) then (true, f (Elem.mk t a x cs))
    else
      let r := updL p f cs
      (r.1, Elem.mk t a x r.2)
def updL (p : Elem → Bool) (f : Elem → Elem) : ElemList → Bool × ElemList
  | ElemList.nil => (false, ElemList.nil)
  | ElemList.cons e es =>
    let r := updE p f e
    if r.1 then (true, ElemList.cons r.2 es)
    else
      let r2 := updL p f es
      (r2.1, ElemList.cons e r2.2)
end

/-- Update of the first matching element, discarding the found flag. -/
def updFirst (p : Elem → Bool) (f : Elem → Elem) (e : Elem) : Elem :=
  (updE p f e).2

/-- Predicate for elements carrying a given name attribute (xpath
//*[@name=$id_]). -/
def nameIs (key : String) (e : Elem) : Bool :=
  decide (attrGet e "name" = some key)

/-- Predicate for elements carrying a given id attribute (xpath
//*[@id=$id_]). -/
def idIs (i : String) (e : Elem) : Bool :=
  decide (attrGet e "id" = some i)

/-- Number of elements of the whole document carrying the given id. -/
def countById (doc : Elem) (i : String) : Nat :=
  ((allNodes doc).filter (idIs i)).length

/-- First element of the whole document carrying the given id. -/
def firstById (doc : Elem) (i : String) : Option Elem :=
  findE (idIs i) doc

/-- First element of the whole document carrying the given name. -/
def firstByName (doc : Elem) (key : String) : Option Elem :=
  findE (nameIs key) doc

/-- Synthetic page: the parsed document plus the form id extracted by
build_doc from the PageRequestManager initialisation script (None meaning
first form of the document).  The script manager id plays no role in the
document mutation entry points embedded here. -/
structure MSHTMLPage where
  doc : Elem
  formid : Option String := none

/-- The form element (property form): the first form carrying the stored
form id when one is known, the first form of the document otherwise; the
subscript [0] of the source raises IndexError when the xpath query matches
nothing. -/
def MSHTMLPage.findForm (page : MSHTMLPage) : Option Elem :=
  match page.formid with
  | some i => findE (fun e => decide (e.tag = "form" ∧ attrGet e "id" = some i)) page.doc
  | none => findE (fun e => decide (e.tag = "form")) page.doc

/-- Predicate locating the page form, consistent with
`MSHTMLPage.findForm`. -/
def MSHTMLPage.formPred (page : MSHTMLPage) : Elem → Bool :=
  match page.formid with
  | some i => fun e => decide (e.tag = "form" ∧ attrGet e "id" = some i)
  | none => fun e => decide (e.tag = "form")

/-- A fresh hidden input carrying the given name and value, as materialised
by the setter for a previously absent control (attribute insertion order
follows the source: type, name, value). -/
def newHiddenInput (key value : String) : Elem :=
  Elem.mk "input" [("type", "hidden"), ("name", key), ("value", value)] none ElemList.nil

/-- Mark or unmark the select options relative to the requested value: an
option whose value attribute equals the requested value is marked selected,
any other option loses its selected marker, non-option children are
untouched (the source iterates the direct option children only). -/
def selOptMark (v : String) (e : Elem) : Elem :=
  if e.tag = "option" then
    if attrGet e "value" = some v then setAttrE e "selected" "selected"
    else delAttrE e "selected"
  else e

def mapOpts (v : String) : ElemList → ElemList
  | ElemList.nil => ElemList.nil
  | ElemList.cons e es => ElemList.cons (selOptMark v e) (mapOpts v es)

/-- Whether some direct option child carries the requested value attribute
(the value_found flag of the source). -/
def hasOptVal (v : String) : ElemList → Bool
  | ElemList.nil => false
  | ElemList.cons e es =>
    (decide (e.tag = "option") && decide (attrGet e "value" = some v)) || hasOptVal v es

/-- A fresh option carrying the given value and marked selected, appended
when no existing option carries the requested value. -/
def newSelectedOption (v : String) : Elem :=
  Elem.mk "option" [("value", v), ("selected", "selected")] none ElemList.nil

/-- The select branch of the control setter: remark the direct option
children, appending a fresh selected option when the value was not found. -/
def setSelectValue (v : String) (c : Elem) : Elem :=
  let cs2 := mapOpts v c.children
  let cs3 :=
    if hasOptVal v c.children then cs2
    else ElemList.append cs2 (ElemList.cons (newSelectedOption v) ElemList.nil)
  Elem.mk c.tag c.attrib c.text cs3

/-- Embedding of MSHTMLPage.__setitem__ (page[key] = value).  The source
first evaluates self.form (IndexError when the document holds no form), then
looks the control up document-wide by name (the xpath starts with // and is
therefore absolute), creating a hidden input inside the form when absent.
For a select control the options are remarked as in `setSelectValue`.  For a
checked checkbox or radio control and a falsy value, the source runs
del c['checked'] on the element object itself instead of its attribute
dictionary, which lxml rejects with TypeError: that exception escapes.  Any
other control gets its value attribute replaced. -/
def MSHTMLPage.setItem (page : MSHTMLPage) (key value : String) :
    Except PyExc MSHTMLPage :=
  match page.findForm with
  | none => Except.error PyExc.indexError
  | some _ =>
    match firstByName page.doc key with
    | none =>
      Except.ok
        ⟨updFirst page.formPred (fun f => appendChildE f (newHiddenInput key value)) page.doc,
         page.formid⟩
    | some c =>
      if c.tag = "select" then
        Except.ok ⟨updFirst (nameIs key) (setSelectValue value) page.doc, page.formid⟩
      else if c.tag = "input" ∧ (attrGet c "type" = some "checkbox" ∨ attrGet c "type" = some "radio") then
        if ¬(value = "") then
          Except.ok ⟨updFirst (nameIs key) (fun e => setAttrE e "checked" "checked") page.doc, page.formid⟩
        else if attrHas c "checked" then Except.error PyExc.typeError
        else Except.ok page
      else
        Except.ok ⟨updFirst (nameIs key) (fun e => setAttrE e "value" value) page.doc, page.formid⟩

/-- The field map being built by MSHTMLPage.request: an insertion-ordered
dictionary from control names to values, where a value of `none` embeds the
Python None left by an unchecked checkbox or radio control (or an optionless
select). -/
abbrev Fields : Type := List (String × Option String)

/-- Dictionary lookup: `some v` when the key is present with value v. -/
def dictGet : List (String × Option String) → String → Option (Option String)
  | [], _ => none
  | (k, v) :: r, key => if k = key then some v else dictGet r key

/-- Dictionary store with Python dict semantics: update in place when the key
exists, append otherwise. -/
def dictStore : List (String × Option String) → String → Option String →
    List (String × Option String)
  | [], k, v => [(k, v)]
  | (k0, v0) :: r, k, v =>
    if k0 = k then (k0, v) :: r else (k0, v0) :: dictStore r k v

/-- Key presence (the name in fields test of the source). -/
def dictHas (fs : List (String × Option String)) (k : String) : Bool :=
  (dictGet fs k).isSome

/-- Store for the files dictionary (only the value is kept; the source always
pairs it with an empty filename placeholder). -/
def filesStore : List (String × String) → String → String → List (String × String)
  | [], k, v => [(k, v)]
  | (k0, v0) :: r, k, v =>
    if k0 = k then (k0, v) :: r else (k0, v0) :: filesStore r k v

/-- The option scan of the select branch of MSHTMLPage.request: walk the
descendant options in document order; on the first option marked selected
(selected attribute exactly equal to the string selected) take its value,
falling back on the default collected so far when that value is None; the
default is the first non-None value of an option seen before any selected
one; an option without a value attribute contributes its text. -/
def selScan : List Elem → Option String → Option String
  | [], dv => dv
  | o :: os, dv =>
    let ov :=
      match attrGet o "value" with
      | some v => some v
      | none => o.text
    if attrGet o "selected" = some "selected" then
      (if ov.isNone then dv else ov)
    else selScan os (if dv.isNone then ov else dv)

/-- Value contributed by a select control: scan of its descendant options
(xpath .//option). -/
def selectValue (inp : Elem) : Option String :=
  selScan ((allNodesL inp.children).filter (fun e => decide (e.tag = "option"))) none

/-- Controls walked by MSHTMLPage.request: the input and select descendants
of the form, in document order (xpath .//input | .//select). -/
def controlsOf (form : Elem) : List Elem :=
  (allNodesL form.children).filter (fun e => decide (e.tag = "input" ∨ e.tag = "select"))

/-- One turn of the control walk of MSHTMLPage.request.  Disabled controls
and controls without a name contribute nothing.  A select always records its
scanned value.  A checkbox or radio control records its value attribute (the
string on when absent) when checked; when unchecked it contributes nothing if
its name was already recorded, and otherwise records the Python None the
source leaves in the value variable.  A file control goes to the files
dictionary.  A submit control is recorded only when the walk was given a
button id matching the control's id.  Every other typed input records its
value attribute or the empty string. -/
def stepControl (button_id : String) (acc : Fields × List (String × String)) (inp : Elem) :
    Fields × List (String × String) :=
  let fields := acc.1
  let files := acc.2
  if truthyAttr inp "disabled" then acc
  else
    match attrGet inp "name" with
    | none => acc
    | some name =>
      if inp.tag = "select" then
        (dictStore fields name (selectValue inp), files)
      else
        match attrGet inp "type" with
        | none => acc
        | some typ =>
          if typ = "checkbox" ∨ typ = "radio" then
            if truthyAttr inp "checked" then
              (dictStore fields name (some ((attrGet inp "value").getD "on")), files)
            else if dictHas fields name then acc
            else (dictStore fields name none, files)
          else if typ = "file" then
            (fields, filesStore files name ((attrGet inp "value").getD ""))
          else if typ = "submit" then
            if button_id = "" ∨ ¬(attrGet inp "id" = some button_id) then acc
            else (dictStore fields name (some ((attrGet inp "value").getD "")), files)
          else
            (dictStore fields name (some ((attrGet inp "value").getD "")), files)

/-- Result of MSHTMLPage.request: the form method and the collected field and
file maps.  The request URL is the browser URL joined with the form action
and is owned by the external HTTP collaborator, so it is not modelled. -/
structure BuiltRequest where
  method : String
  fields : Fields
  files : List (String × String)

/-- Embedding of MSHTMLPage.request: locate the form (IndexError when
absent), walk its controls, then force-set the event target, event argument
and last focus entries, and blank the two transient framework fields when
present. -/
def MSHTMLPage.request (page : MSHTMLPage) (target argument button_id : String) :
    Except PyExc BuiltRequest :=
  match page.findForm with
  | none => Except.error PyExc.indexError
  | some form =>
    let method := (attrGet form "method").getD "POST"
    let acc := (controlsOf form).foldl (stepControl button_id) ([], [])
    let fields := acc.1
    let fields := dictStore fields "__EVENTTARGET" (some target)
    let fields := dictStore fields "__EVENTARGUMENT" (some argument)
    let fields := dictStore fields "__LASTFOCUS" (some "")
    let fields :=
      if dictHas fields "_eo_js_modules" then dictStore fields "_eo_js_modules" (some "")
      else fields
    let fields :=
      if dictHas fields "_eo_obj_inst" then dictStore fields "_eo_obj_inst" (some "")
      else fields
    Except.ok ⟨method, fields, acc.2⟩

/-- Outcome of applying a parsed delta response onto the page, as specified
for the document patcher: the source raises BrowserHTTPError for a reported
error and BrowserRedirect for a redirect, and otherwise completes the
mutation. -/
inductive PatchOutcome where
  | Applied
  | Errored (code : PyNum) (message : String)
  | Redirected (url : String)

/-- One updatePanel fragment applied onto the page (the per-fragment body of
the postback loop): a fragment with whitespace-only content is skipped, a
fragment whose id does not match exactly one element of the document is
skipped, a fragment whose markup the snippet parser rejects is skipped, and
otherwise the matched element keeps its tag and attributes while its text and
children are replaced by the parsed body content.  `parse_html_body` models
the lxml parse of <html><body>content</body></html> followed by taking the
body element; `none` models XMLSyntaxError. -/
def applyUpdatePanel (parse_html_body : String → Option Elem) (page : MSHTMLPage)
    (node : String × String) : MSHTMLPage :=
  if stripWsL node.2.data = [] then page
  else if ¬(countById page.doc node.1 = 1) then page
  else
    match parse_html_body node.2 with
    | none => page
    | some frag =>
      ⟨updFirst (idIs node.1)
          (fun e => Elem.mk e.tag e.attrib frag.text frag.children) page.doc,
       page.formid⟩

/-- Embedding of the response-application part of MSHTMLPage.postback (after
the HTTP exchange and MicrosoftAjaxResponse.fromtext): a response carrying an
error code raises BrowserHTTPError before touching the page, otherwise a
response carrying a redirect URL raises BrowserRedirect before touching the
page, and otherwise the updatePanel fragments are applied in stream order
followed by the hiddenField fragments through the control setter (whose
exceptions escape). -/
def applyAjax (parse_html_body : String → Option Elem) (page : MSHTMLPage)
    (r : MicrosoftAjaxResponse) : Except PyExc (PatchOutcome × MSHTMLPage) :=
  match r.error with
  | some (code, msg) => Except.ok (PatchOutcome.Errored code msg, page)
  | none =>
    match r.redirectUrl with
    | some url => Except.ok (PatchOutcome.Redirected url, page)
    | none => do
      let page := r.updatePanelNodes.foldl (applyUpdatePanel parse_html_body) page
      let page ← r.hiddenFieldNodes.foldlM (fun p nc => MSHTMLPage.setItem p nc.1 nc.2) page
      pure (PatchOutcome.Applied, page)

/-- Number of direct option children carrying the selected marker; the claim
invariant for select controls counts exactly these. -/
def countSelOpts : ElemList → Nat
  | ElemList.nil => 0
  | ElemList.cons e es =>
    (if e.tag = "option" ∧ attrHas e "selected" then 1 else 0) + countSelOpts es

/-- Value attributes of the direct option children, in order. -/
def optionVals : ElemList → List String
  | ElemList.nil => []
  | ElemList.cons e es =>
    if e.tag = "option" then
      match attrGet e "value" with
      | some v => v :: optionVals es
      | none => optionVals es
    else optionVals es

/-- Number of direct option children whose value attribute equals v. -/
def matchCount (v : String) : ElemList → Nat
  | ElemList.nil => 0
  | ElemList.cons e es =>
    (if e.tag = "option" ∧ attrGet e "value" = some v then 1 else 0) + matchCount v es

/-- One complete wire record of the delta stream grammar
length|type|name|content| (the length field is kept as its literal text; a
record is well formed when its first three fields are pipe-free and its
length field parses to the character count of its content). -/
structure WireRecord where
  lenStr : String
  rtype : String
  rname : String
  content : String

/-- Well-formedness of a complete wire record. -/
def wfWireRecord (r : WireRecord) : Prop :=
  ¬('|' ∈ r.lenStr.data) ∧ ¬('|' ∈ r.rtype.data) ∧ ¬('|' ∈ r.rname.data) ∧
    pyIntOfDec r.lenStr.data = some (r.content.data.length : ℤ)

instance (r : WireRecord) : Decidable (wfWireRecord r) := by
  unfold wfWireRecord
  infer_instance

/-- Serialisation of one complete record, final pipe included. -/
def serRecord (r : WireRecord) : List Char :=
  r.lenStr.data ++ '|' :: (r.rtype.data ++ '|' :: (r.rname.data ++ '|' :: (r.content.data ++ ['|'])))

/-- Serialisation of a record sequence. -/
def serStream (rs : List WireRecord) : List Char :=
  (rs.map serRecord).flatten

/-- Whether a character is a line break (the characters the reading loop
ignores at end of stream). -/
def isLB (c : Char) : Bool :=
  c = '\n' || c = '\r'

/-- Concrete fixtures used by the claim witnesses and counterexamples. -/
def emptyDocPage : MSHTMLPage :=
  ⟨Elem.mk "html" [] none ElemList.nil, none⟩

def c1resp : MicrosoftAjaxResponse :=
  { error := some (PyNum.i 500, "boom"), redirectUrl := some "target",
    updatePanelNodes := [("x", "<b>1</b>")], hiddenFieldNodes := [("h", "v")] }

def c1respRedirect : MicrosoftAjaxResponse :=
  { redirectUrl := some "t2", updatePanelNodes := [("x", "<b>1</b>")] }

def c2stRedirected : MicrosoftAjaxResponse :=
  { redirectUrl := some "u" }

def c10stV4 : MicrosoftAjaxResponse :=
  { version := some (PyFloat.finite 4) }

def c5frag : Elem :=
  Elem.mk "body" [] none
    (ElemList.cons (Elem.mk "span" [] (some "hi") ElemList.nil) ElemList.nil)

/-- Concrete snippet parser for the patcher fixtures: the empty snippet
parses to an empty body, the span snippet parses to a body holding the span,
anything else is malformed. -/
def c5ph : String → Option Elem := fun s =>
  if s = "" then some (Elem.mk "body" [] none ElemList.nil)
  else if s = "<span>hi</span>" then some c5frag
  else none

def c5orig : Elem :=
  Elem.mk "div" [("id", "panelA")] (some "old")
    (ElemList.cons (Elem.mk "p" [] (some "x") ElemList.nil) ElemList.nil)

def c5page : MSHTMLPage :=
  ⟨Elem.mk "html" [] none (ElemList.cons c5orig ElemList.nil), none⟩

def c6boxPage : MSHTMLPage :=
  ⟨Elem.mk "html" [] none
    (ElemList.cons
      (Elem.mk "form" [] none
        (ElemList.cons
          (Elem.mk "input" [("type", "checkbox"), ("name", "c"), ("value", "y")] none
            ElemList.nil)
          ElemList.nil))
      ElemList.nil),
   none⟩

def c6radioUnchecked : Elem :=
  Elem.mk "input" [("type", "radio"), ("name", "mode"), ("value", "y")] none ElemList.nil

def c6radioPage : MSHTMLPage :=
  ⟨Elem.mk "html" [] none
    (ElemList.cons
      (Elem.mk "form" [] none
        (ElemList.cons
          (Elem.mk "input"
            [("type", "radio"), ("name", "mode"), ("value", "x"), ("checked", "checked")] none
            ElemList.nil)
          (ElemList.cons c6radioUnchecked ElemList.nil)))
      ElemList.nil),
   none⟩

def c7pageUnchecked : MSHTMLPage :=
  ⟨Elem.mk "html" [] none
    (ElemList.cons
      (Elem.mk "form" [] none
        (ElemList.cons
          (Elem.mk "input" [("type", "checkbox"), ("name", "c"), ("value", "v")] none
            ElemList.nil)
          (ElemList.cons
            (Elem.mk "input" [("type", "radio"), ("name", "d"), ("checked", "checked")] none
              ElemList.nil)
            ElemList.nil)))
      ElemList.nil),
   none⟩

def c7pageChecked : MSHTMLPage :=
  ⟨Elem.mk "html" [] none
    (ElemList.cons
      (Elem.mk "form" [] none
        (ElemList.cons
          (Elem.mk "input"
            [("type", "checkbox"), ("name", "c"), ("value", "v"), ("checked", "checked")] none
            ElemList.nil)
          (ElemList.cons
            (Elem.mk "input" [("type", "radio"), ("name", "d"), ("checked", "checked")] none
              ElemList.nil)
            ElemList.nil)))
      ElemList.nil),
   none⟩

def c9dupPage : MSHTMLPage :=
  ⟨Elem.mk "html" [] none
    (ElemList.cons
      (Elem.mk "form" [] none
        (ElemList.cons
          (Elem.mk "select" [("name", "s")] none
            (ElemList.cons (Elem.mk "option" [("value", "a")] none ElemList.nil)
              (ElemList.cons (Elem.mk "option" [("value", "a")] none ElemList.nil)
                ElemList.nil)))
          ElemList.nil))
      ElemList.nil),
   none⟩

def c9selDistinct : Elem :=
  Elem.mk "select" [("name", "t")] none
    (ElemList.cons (Elem.mk "option" [("value", "a"), ("selected", "selected")] none ElemList.nil)
      (ElemList.cons (Elem.mk "option" [("value", "b")] none ElemList.nil) ElemList.nil))

def c9pageDistinct : MSHTMLPage :=
  ⟨Elem.mk "html" [] none
    (ElemList.cons
      (Elem.mk "form" [] none (ElemList.cons c9selDistinct ElemList.nil))
      ElemList.nil),
   none⟩

def c8record : WireRecord :=
  ⟨"1", "pageTitle", "", "a"⟩

theorem attrLookup_store_self (al : List (String × String)) (k v : String) :
    attrLookup (attrStore al k v) k = some v := by
  induction al with
  | nil => simp [attrStore, attrLookup]
  | cons p r ih =>
    obtain ⟨k0, v0⟩ := p
    by_cases h : k0 = k <;> simp [attrStore, attrLookup, h, ih]

theorem attrLookup_remove_self (al : List (String × String)) (k : String) :
    attrLookup (attrRemove al k) k = none := by
  induction al with
  | nil => simp [attrRemove, attrLookup]
  | cons p r ih =>
    obtain ⟨k0, v0⟩ := p
    by_cases h : k0 = k <;> simp [attrRemove, attrLookup, h, ih]

theorem findE_eq (p : Elem → Bool) (e : Elem) :
    findE p e = if p e then some e else findL p e.children := by
  cases e
  rfl

theorem updE_eq (p : Elem → Bool) (f : Elem → Elem) (e : Elem) :
    updE p f e =
      if p e then (true, f e)
      else ((updL p f e.children).1,
            Elem.mk e.tag e.attrib e.text (updL p f e.children).2) := by
  cases e
  rfl

mutual

theorem updE_flag (p : Elem → Bool) (f : Elem → Elem) :
    ∀ e : Elem, (updE p f e).1 = (findE p e).isSome
  | Elem.mk t a x cs => by
    by_cases h : p (Elem.mk t a x cs)
    · simp [updE, findE, h]
    · simp [updE, findE, h, updL_flag p f cs]

theorem updL_flag (p : Elem → Bool) (f : Elem → Elem) :
    ∀ l : ElemList, (updL p f l).1 = (findL p l).isSome
  | ElemList.nil => by simp [updL, findL]
  | ElemList.cons e es => by
    have he := updE_flag p f e
    have hes := updL_flag p f es
    cases hf : findE p e with
    | some v =>
      rw [hf] at he
      simp only [updL, findL, hf, he]
      simp
    | none =>
      rw [hf] at he
      simp only [updL, findL, hf, he]
      simp [hes]

end

mutual

theorem updE_not_found (p : Elem → Bool) (f : Elem → Elem) :
    ∀ e : Elem, (updE p f e).1 = false → (updE p f e).2 = e
  | Elem.mk t a x cs => by
    intro h
    cases hp : p (Elem.mk t a x cs)
    · simp only [updE, hp, Bool.false_eq_true, if_false] at h ⊢
      exact congrArg (Elem.mk t a x) (updL_not_found p f cs h)
    · simp [updE, hp] at h

theorem updL_not_found (p : Elem → Bool) (f : Elem → Elem) :
    ∀ l : ElemList, (updL p f l).1 = false → (updL p f l).2 = l
  | ElemList.nil => by intro _; rfl
  | ElemList.cons e es => by
    intro h
    cases hb : (updE p f e).1
    · simp only [updL, hb, Bool.false_eq_true, if_false] at h ⊢
      rw [updL_not_found p f es h]
    · simp [updL, hb] at h

end

mutual

theorem findE_upd (p : Elem → Bool) (f : Elem → Elem)
    (hp : ∀ e : Elem, p e = true → p (f e) = true)
    (hattr : ∀ (t : String) (a : List (String × String)) (x : Option String)
      (cs cs2 : ElemList), p (Elem.mk t a x cs) = p (Elem.mk t a x cs2)) :
    ∀ e : Elem, findE p ((updE p f e).2) = (findE p e).map f
  | Elem.mk t a x cs => by
    cases hpe : p (Elem.mk t a x cs)
    · simp only [updE, hpe, Bool.false_eq_true, if_false]
      have hc : p (Elem.mk t a x (updL p f cs).2) = false := by
        rw [hattr t a x (updL p f cs).2 cs]
        exact hpe
      rw [findE_eq, findE_eq]
      simp only [hpe, hc, Bool.false_eq_true, if_false]
      simpa using findL_upd p f hp hattr cs
    · simp only [updE, hpe, if_true]
      have hf : p (f (Elem.mk t a x cs)) = true := hp _ hpe
      rw [findE_eq, findE_eq]
      simp [hpe, hf]

theorem findL_upd (p : Elem → Bool) (f : Elem → Elem)
    (hp : ∀ e : Elem, p e = true → p (f e) = true)
    (hattr : ∀ (t : String) (a : List (String × String)) (x : Option String)
      (cs cs2 : ElemList), p (Elem.mk t a x cs) = p (Elem.mk t a x cs2)) :
    ∀ l : ElemList, findL p ((updL p f l).2) = (findL p l).map f
  | ElemList.nil => by simp [updL, findL]
  | ElemList.cons e es => by
    cases hb : (updE p f e).1
    · have he := updE_not_found p f e hb
      have hfe : findE p e = none := by
        have hflag := updE_flag p f e
        rw [hb] at hflag
        cases hffe : findE p e
        · rfl
        · rw [hffe] at hflag
          simp at hflag
      simp only [updL, hb, Bool.false_eq_true, if_false]
      simp only [findL, hfe]
      exact findL_upd p f hp hattr es
    · have hfe : (findE p e).isSome = true := by
        rw [← updE_flag p f e]
        exact hb
      obtain ⟨v, hv⟩ := Option.isSome_iff_exists.mp hfe
      simp only [updL, hb, if_true]
      simp only [findL, hv]
      rw [findE_upd p f hp hattr e, hv]
      simp

end

/-- C1: when the parsed delta response carries an error, applying it reports
that error (even when a redirect URL is also present, so the error takes
precedence), and when it carries an error code or a redirect URL the page is
returned untouched: no update-panel splice and no hidden-field set happens. -/
theorem c1_error_precedence_no_mutation (ph : String → Option Elem)
    (page : MSHTMLPage) (r : MicrosoftAjaxResponse) :
    (∀ (code : PyNum) (msg : String), r.error = some (code, msg) →
      applyAjax ph page r = Except.ok (PatchOutcome.Errored code msg, page)) ∧
    (r.error = none → ∀ url : String, r.redirectUrl = some url →
      applyAjax ph page r = Except.ok (PatchOutcome.Redirected url, page)) := by
  constructor
  · intro code msg h
    simp [applyAjax, h]
  · intro h url hu
    simp [applyAjax, h, hu]

/-- Witness for C1: a concrete response carrying both an error and a redirect
reports the error with the page unchanged, and a concrete redirect-only
response reports the redirect with the page unchanged, although both carry an
update panel. -/
theorem c1_witness :
    c1resp.error = some (PyNum.i 500, "boom") ∧
    applyAjax c5ph emptyDocPage c1resp =
      Except.ok (PatchOutcome.Errored (PyNum.i 500) "boom", emptyDocPage) ∧
    c1respRedirect.error = none ∧
    c1respRedirect.redirectUrl = some "t2" ∧
    applyAjax c5ph emptyDocPage c1respRedirect =
      Except.ok (PatchOutcome.Redirected "t2", emptyDocPage) :=
  ⟨rfl,
   (c1_error_precedence_no_mutation c5ph emptyDocPage c1resp).1 (PyNum.i 500) "boom" rfl,
   rfl, rfl,
   (c1_error_precedence_no_mutation c5ph emptyDocPage c1respRedirect).2 rfl "t2" rfl⟩

/-- C2 counterexample: in a stream carrying two pageTitle records the parser
keeps the value of the second record, while the claim says the value of the
first record (a) is retained. -/
theorem c2_counterexample :
    (MicrosoftAjaxResponse.fromtext (fun s => s) "1|pageTitle||a|1|pageTitle||b|").map
        MicrosoftAjaxResponse.pageTitle =
      Except.ok (some "b") ∧
    ¬((some "b" : Option String) = some "a") := by
  constructor
  · decide
  · decide

/-- C2 amended: only PageRedirect and Error are first-wins singletons (a
record of one of those categories is ignored when its slot is already set);
Version, PageTitle and Focus are last-wins (each record of those categories
overwrites the slot unconditionally). -/
theorem c2_singleton_policy (u : String → String) (st : MicrosoftAjaxResponse)
    (n c : String) (tc : Nat) :
    (∀ url : String, st.redirectUrl = some url →
      handleRecord u st "pageRedirect" n c tc = Except.ok st) ∧
    (∀ err : PyNum × String, st.error = some err →
      handleRecord u st "error" n c tc = Except.ok st) ∧
    handleRecord u st "pageTitle" n c tc = Except.ok { st with pageTitle := some c } ∧
    handleRecord u st "focus" n c tc = Except.ok { st with focus := some c } ∧
    (∀ fv : PyFloat, pyFloatOfChars c.data = some fv →
      handleRecord u st "#" n c tc = Except.ok { st with version := some fv }) := by
  refine ⟨?_, ?_, ?_, ?_, ?_⟩
  · intro url h
    simp [handleRecord, h]
  · intro err h
    simp [handleRecord, h]
  · simp [handleRecord]
  · simp [handleRecord]
  · intro fv h
    simp [handleRecord, h]

/-- Witness for C2 amended: a pageRedirect record on a state whose redirect
slot is already filled leaves the state unchanged. -/
theorem c2_witness :
    c2stRedirected.redirectUrl = some "u" ∧
    handleRecord (fun s => s) c2stRedirected "pageRedirect" "" "x" 0 =
      Except.ok c2stRedirected :=
  ⟨rfl, (c2_singleton_policy (fun s => s) c2stRedirected "" "x" 0).1 "u" rfl⟩

/-- C3: the numeric literal reader returns 31 for 0x1F, positive infinity for
+infinity and nan for abc without raising, but it does raise for inputs such
as inf and nan: the uncaught int(x) call of the integral-normalisation step
raises OverflowError on an infinite float and ValueError on a nan float, so
the reader is not exception-free for every input. -/
theorem c3_parseinvariantnumber_cases :
    parseinvariantnumber "0x1F" = Except.ok (PyNum.i 31) ∧
    parseinvariantnumber "+infinity" = Except.ok PyNum.inf ∧
    parseinvariantnumber "abc" = Except.ok PyNum.nan ∧
    parseinvariantnumber "inf" = Except.error PyExc.overflowError ∧
    parseinvariantnumber "nan" = Except.error PyExc.valueError := by
  refine ⟨by decide, by decide, by decide, by decide, by decide⟩

/-- C4: an unrecognized type token is indeed a framing error pointing at the
type field column, but the two other cases named by the claim escape as
unclassified exceptions instead of framing errors: a fallbackScript record
with no preceding scriptBlock raises IndexError (the source catches KeyError
around a list index), and a version record whose content is not a float
literal raises ValueError (the float call is unguarded). -/
theorem c4_parser_exception_cases :
    MicrosoftAjaxResponse.fromtext (fun s => s) "1|fallbackScript||p|" =
      Except.error PyExc.indexError ∧
    MicrosoftAjaxResponse.fromtext (fun s => s) "3|#||abc|" =
      Except.error PyExc.valueError ∧
    MicrosoftAjaxResponse.fromtext (fun s => s) "1|zzz||x|" =
      Except.error (PyExc.framing 3 ("unknown ajax fragment type " ++ "zzz")) := by
  refine ⟨by decide, by decide, by decide⟩

/-- C7: setting a truthy value on a checkbox marks it checked and leaves the
checked marker of the other control untouched, and setting a falsy value on a
control that carries no checked marker completes unchanged; but setting a
falsy value on a checked checkbox raises TypeError instead of removing the
marker, because the source deletes the key from the element object instead of
its attribute dictionary. -/
theorem c7_checkbox_set_cases :
    MSHTMLPage.setItem c7pageUnchecked "c" "x" = Except.ok c7pageChecked ∧
    MSHTMLPage.setItem c7pageChecked "c" "" = Except.error PyExc.typeError ∧
    MSHTMLPage.setItem c7pageUnchecked "c" "" = Except.ok c7pageUnchecked := by
  refine ⟨rfl, rfl, rfl⟩

/-- C10: a pageRedirect record parsed while the stored version is at least 4
stores the percent-decoded content (the unquote collaborator is applied), and
otherwise stores the content verbatim; `u` is the urllib unquote
collaborator. -/
theorem c10_redirect_unquote (u : String → String) (st : MicrosoftAjaxResponse)
    (n c : String) (tc : Nat) (h : st.redirectUrl = none) :
    (versionGe4 st.version = true →
      handleRecord u st "pageRedirect" n c tc =
        Except.ok { st with redirectUrl := some (u c) }) ∧
    (versionGe4 st.version = false →
      handleRecord u st "pageRedirect" n c tc =
        Except.ok { st with redirectUrl := some c }) := by
  constructor <;> intro hv <;> simp [handleRecord, h, hv]

/-- Witness for C10: with version 4 stored, a concrete decode function is
applied to the redirect content. -/
theorem c10_witness :
    c10stV4.redirectUrl = none ∧
    versionGe4 c10stV4.version = true ∧
    handleRecord (fun s => String.append "dec:" s) c10stV4 "pageRedirect" "" "a%20b" 7 =
      Except.ok { c10stV4 with redirectUrl := some (String.append "dec:" "a%20b") } :=
  ⟨rfl, by decide,
   (c10_redirect_unquote (fun s => String.append "dec:" s) c10stV4 "" "a%20b" 7 rfl).1
     (by decide)⟩

/-- C6 counterexample: a form whose only control is an unchecked checkbox
named c yields a field map in which c is present and bound to the Python
None value, while the claim says the name is left absent from the field
map. -/
theorem c6_counterexample :
    (MSHTMLPage.request c6boxPage "" "" "").map (fun r => dictGet r.fields "c") =
      Except.ok (some none) ∧
    ¬((some none : Option (Option String)) = none) := by
  constructor
  · rfl
  · decide

/-- C6 amended: an unchecked checkbox or radio control contributes no usable
value: when a value was already recorded under its name the earlier entry is
retained untouched, and when nothing was recorded yet the name is bound to
the Python None placeholder (so the entry exists but carries no value, and a
later same-named control may still overwrite it).  The two-radio example of
the claim holds: the built request carries exactly one mode entry with value
x. -/
theorem c6_checkbox_radio_fields :
    (∀ (bid name : String) (fs : Fields) (fls : List (String × String)) (inp : Elem),
      truthyAttr inp "disabled" = false →
      attrGet inp "name" = some name →
      ¬(inp.tag = "select") →
      (attrGet inp "type" = some "checkbox" ∨ attrGet inp "type" = some "radio") →
      truthyAttr inp "checked" = false →
      (dictHas fs name = true → stepControl bid (fs, fls) inp = (fs, fls)) ∧
      (dictHas fs name = false →
        stepControl bid (fs, fls) inp = (dictStore fs name none, fls))) ∧
    (MSHTMLPage.request c6radioPage "" "" "").map
        (fun r => r.fields.filter (fun p => p.1 = "mode")) =
      Except.ok [("mode", some "x")] := by
  constructor
  · intro bid name fs fls inp hdis hname hsel htyp hchk
    constructor
    · intro hhas
      rcases htyp with h | h <;>
        simp [stepControl, hdis, hname, hsel, h, hchk, hhas]
    · intro hhas
      rcases htyp with h | h <;>
        simp [stepControl, hdis, hname, hsel, h, hchk, hhas]
  · rfl

/-- Witness for C6 amended: the concrete unchecked radio contributes the None
placeholder on an empty field map and leaves an already recorded entry
untouched. -/
theorem c6_witness :
    truthyAttr c6radioUnchecked "disabled" = false ∧
    attrGet c6radioUnchecked "name" = some "mode" ∧
    truthyAttr c6radioUnchecked "checked" = false ∧
    stepControl "" ([], []) c6radioUnchecked = ([("mode", none)], []) ∧
    stepControl "" ([("mode", some "x")], []) c6radioUnchecked =
      ([("mode", some "x")], []) :=
  ⟨rfl, rfl, rfl,
   (c6_checkbox_radio_fields.1 "" "mode" [] [] c6radioUnchecked rfl rfl (by decide)
     (Or.inr rfl) rfl).2 rfl,
   (c6_checkbox_radio_fields.1 "" "mode" [("mode", some "x")] [] c6radioUnchecked rfl rfl
     (by decide) (Or.inr rfl) rfl).1 rfl⟩

/-- C5 counterexample: an UpdatePanel fragment whose content is empty is
silently skipped before any parse is attempted, so the matched element keeps
its children, while the claim demands that its children be replaced by the
parsed content (an empty body, hence no children) whenever the page has
exactly one matching element and the markup is well formed. -/
theorem c5_counterexample :
    applyAjax c5ph c5page { updatePanelNodes := [("panelA", "")] } =
      Except.ok (PatchOutcome.Applied, c5page) ∧
    countById c5page.doc "panelA" = 1 ∧
    c5ph "" = some (Elem.mk "body" [] none ElemList.nil) ∧
    firstById c5page.doc "panelA" = some c5orig ∧
    ¬(c5orig.children = ElemList.nil) := by
  refine ⟨rfl, by decide, rfl, rfl, ?_⟩
  intro h
  exact ElemList.noConfusion h

/-- C5 amended: an UpdatePanel fragment is silently skipped (leaving the page
unchanged) when its content is whitespace-only, when the match count of its
id differs from one, or when its markup is malformed; otherwise the unique
matched element keeps its tag and attributes while its text and children are
replaced by the parsed body content; and a non-error, non-redirect response
always patches to the Applied outcome (stated here for responses without
hidden-field fragments, whose control setter can raise). -/
theorem c5_update_panel (ph : String → Option Elem) (page : MSHTMLPage)
    (name content : String) :
    (stripWsL content.data = [] → applyUpdatePanel ph page (name, content) = page) ∧
    (¬(countById page.doc name = 1) → applyUpdatePanel ph page (name, content) = page) ∧
    (ph content = none → applyUpdatePanel ph page (name, content) = page) ∧
    (∀ frag e : Elem, ¬(stripWsL content.data = []) → countById page.doc name = 1 →
      ph content = some frag → firstById page.doc name = some e →
      (applyUpdatePanel ph page (name, content)).formid = page.formid ∧
      firstById (applyUpdatePanel ph page (name, content)).doc name =
        some (Elem.mk e.tag e.attrib frag.text frag.children)) ∧
    (∀ r : MicrosoftAjaxResponse, r.error = none → r.redirectUrl = none →
      r.hiddenFieldNodes = [] →
      applyAjax ph page r =
        Except.ok (PatchOutcome.Applied,
          r.updatePanelNodes.foldl (applyUpdatePanel ph) page)) := by
  refine ⟨?_, ?_, ?_, ?_, ?_⟩
  · intro h
    simp [applyUpdatePanel, h]
  · intro h
    by_cases hs : stripWsL content.data = [] <;> simp [applyUpdatePanel, hs, h]
  · intro h
    by_cases hs : stripWsL content.data = []
    · simp [applyUpdatePanel, hs]
    · by_cases hcnt : countById page.doc name = 1 <;>
        simp [applyUpdatePanel, hs, hcnt, h]
  · intro frag e h1 h2 h3 h4
    have happ : applyUpdatePanel ph page (name, content) =
        ⟨updFirst (idIs name)
          (fun e2 => Elem.mk e2.tag e2.attrib frag.text frag.children) page.doc,
         page.formid⟩ := by
      simp [applyUpdatePanel, h1, h2, h3]
    rw [happ]
    refine ⟨rfl, ?_⟩
    show firstById (updFirst (idIs name)
      (fun e2 => Elem.mk e2.tag e2.attrib frag.text frag.children) page.doc) name =
      some (Elem.mk e.tag e.attrib frag.text frag.children)
    unfold firstById updFirst
    rw [findE_upd (idIs name) (fun e2 => Elem.mk e2.tag e2.attrib frag.text frag.children)
      ?_ ?_ page.doc]
    · unfold firstById at h4
      rw [h4]
      rfl
    · intro e2 he2
      cases e2
      exact he2
    · intro t a x cs cs2
      rfl
  · intro r h1 h2 h3
    simp [applyAjax, h1, h2, h3]
    rfl

/-- Witness for C5 amended: the concrete span fragment replaces the children
of the unique panelA element, keeping its tag and attributes. -/
theorem c5_witness :
    ¬(stripWsL "<span>hi</span>".data = []) ∧
    countById c5page.doc "panelA" = 1 ∧
    c5ph "<span>hi</span>" = some c5frag ∧
    firstById c5page.doc "panelA" = some c5orig ∧
    firstById (applyUpdatePanel c5ph c5page ("panelA", "<span>hi</span>")).doc "panelA" =
      some (Elem.mk c5orig.tag c5orig.attrib c5frag.text c5frag.children) :=
  ⟨by decide, by decide, rfl, rfl,
   ((c5_update_panel c5ph c5page "panelA" "<span>hi</span>").2.2.2.1 c5frag c5orig
     (by decide) (by decide) rfl rfl).2⟩

theorem countSelOpts_append : ∀ a b : ElemList,
    countSelOpts (ElemList.append a b) = countSelOpts a + countSelOpts b
  | ElemList.nil, b => by simp [ElemList.append, countSelOpts]
  | ElemList.cons e es, b => by
    simp only [ElemList.append, countSelOpts, countSelOpts_append es b]
    omega

theorem countSelOpts_mapOpts (v : String) : ∀ cs : ElemList,
    countSelOpts (mapOpts v cs) = matchCount v cs
  | ElemList.nil => rfl
  | ElemList.cons e es => by
    have ih := countSelOpts_mapOpts v es
    simp only [mapOpts, countSelOpts, matchCount, ih]
    congr 1
    cases e with
    | mk t a x cs0 =>
      by_cases ht : t = "option"
      · by_cases hv : attrLookup a "value" = some v
        · simp [selOptMark, ht, hv, setAttrE, attrHas, attrGet, Elem.tag, Elem.attrib,
            attrLookup_store_self]
        · simp [selOptMark, ht, hv, delAttrE, attrHas, attrGet, Elem.tag, Elem.attrib,
            attrLookup_remove_self]
      · simp [selOptMark, ht, Elem.tag, attrGet, Elem.attrib]

theorem matchCount_pos_mem (v : String) : ∀ cs : ElemList,
    0 < matchCount v cs → v ∈ optionVals cs
  | ElemList.nil => by simp [matchCount]
  | ElemList.cons e es => by
    intro h
    by_cases ht : e.tag = "option"
    · by_cases hv : attrGet e "value" = some v
      · simp [optionVals, ht, hv]
      · simp only [matchCount, ht, hv, and_false, if_false, true_and, if_neg hv] at h
        have hmem := matchCount_pos_mem v es (by omega)
        simp only [optionVals, ht, if_pos ht]
        cases hw : attrGet e "value"
        · simpa using hmem
        · simp [hmem]
    · simp only [matchCount, ht, false_and, if_false] at h
      have hmem := matchCount_pos_mem v es (by omega)
      simp [optionVals, ht, hmem]

theorem matchCount_le_one (v : String) : ∀ cs : ElemList,
    (optionVals cs).Nodup → matchCount v cs ≤ 1
  | ElemList.nil => by simp [matchCount]
  | ElemList.cons e es => by
    intro hnd
    by_cases ht : e.tag = "option"
    · by_cases hv : attrGet e "value" = some v
      · have hvals : optionVals (ElemList.cons e es) = v :: optionVals es := by
          simp [optionVals, ht, hv]
        rw [hvals] at hnd
        have hnotmem := (List.nodup_cons.mp hnd).1
        have hzero : matchCount v es = 0 := by
          by_contra hne
          exact hnotmem (matchCount_pos_mem v es (by omega))
        simp [matchCount, ht, hv, hzero]
      · have htail : (optionVals es).Nodup := by
          by_cases hw : (attrGet e "value").isSome
          · obtain ⟨w, hw2⟩ := Option.isSome_iff_exists.mp hw
            have hvals : optionVals (ElemList.cons e es) = w :: optionVals es := by
              simp [optionVals, ht, hw2]
            rw [hvals] at hnd
            exact (List.nodup_cons.mp hnd).2
          · have hw2 : attrGet e "value" = none := by
              cases hw3 : attrGet e "value"
              · rfl
              · rw [hw3] at hw
                simp at hw
            have hvals : optionVals (ElemList.cons e es) = optionVals es := by
              simp [optionVals, ht, hw2]
            rwa [hvals] at hnd
        have := matchCount_le_one v es htail
        simp [matchCount, ht, hv]
        omega
    · have hvals : optionVals (ElemList.cons e es) = optionVals es := by
        simp [optionVals, ht]
      rw [hvals] at hnd
      have := matchCount_le_one v es hnd
      simp [matchCount, ht]
      omega

theorem hasOptVal_false_matchCount (v : String) : ∀ cs : ElemList,
    hasOptVal v cs = false → matchCount v cs = 0
  | ElemList.nil => by simp [matchCount]
  | ElemList.cons e es => by
    intro h
    simp only [hasOptVal, Bool.or_eq_false_iff, Bool.and_eq_false_iff,
      decide_eq_false_iff_not] at h
    have h2 := hasOptVal_false_matchCount v es h.2
    rcases h.1 with hh | hh <;> simp [matchCount, hh, h2]

/-- Core of the amended select invariant: after remarking the options of a
select whose option values are pairwise distinct, at most one direct option
child carries the selected marker. -/
theorem countSelOpts_setSelectValue (v : String) (c : Elem)
    (hnd : (optionVals c.children).Nodup) :
    countSelOpts (setSelectValue v c).children ≤ 1 := by
  cases c with
  | mk t a x cs0 =>
    simp only [Elem.children] at hnd ⊢
    cases hc : hasOptVal v cs0
    · have hm := hasOptVal_false_matchCount v cs0 hc
      simp [setSelectValue, Elem.children, hc, countSelOpts_append, countSelOpts_mapOpts,
        hm, countSelOpts, newSelectedOption, attrHas, attrGet, Elem.tag, Elem.attrib,
        attrLookup]
    · have hle := matchCount_le_one v cs0 hnd
      simp [setSelectValue, Elem.children, hc, countSelOpts_mapOpts]
      exact hle

/-- C9 counterexample: on a select whose two options share the value a
(satisfying the invariant, none selected), setting that value marks both
options selected, so the at-most-one invariant does not survive duplicate
value attributes. -/
theorem c9_counterexample :
    (MSHTMLPage.setItem c9dupPage "s" "a").map
        (fun p => (firstByName p.doc "s").map (fun c => countSelOpts c.children)) =
      Except.ok (some 2) ∧
    ¬((2 : Nat) ≤ 1) := by
  constructor
  · rfl
  · decide

/-- C9 amended: for a select control whose option values are pairwise
distinct, the control-value setter preserves the invariant that at most one
direct option child carries the selected marker (the prior invariant is in
fact not even needed: the setter remarks every option). -/
theorem c9_select_invariant (page : MSHTMLPage) (key value : String) (c : Elem)
    (hform : (MSHTMLPage.findForm page).isSome = true)
    (hc : firstByName page.doc key = some c)
    (hsel : c.tag = "select")
    (hnd : (optionVals c.children).Nodup)
    (_hinv : countSelOpts c.children ≤ 1) :
    ∃ page2 : MSHTMLPage, MSHTMLPage.setItem page key value = Except.ok page2 ∧
      ∀ c2 : Elem, firstByName page2.doc key = some c2 →
        countSelOpts c2.children ≤ 1 := by
  obtain ⟨form, hf⟩ := Option.isSome_iff_exists.mp hform
  refine ⟨⟨updFirst (nameIs key) (setSelectValue value) page.doc, page.formid⟩, ?_, ?_⟩
  · simp [MSHTMLPage.setItem, hf, hc, hsel]
  · intro c2 h2
    have hfind : firstByName (updFirst (nameIs key) (setSelectValue value) page.doc) key =
        some (setSelectValue value c) := by
      unfold firstByName updFirst
      rw [findE_upd (nameIs key) (setSelectValue value) ?_ ?_ page.doc]
      · unfold firstByName at hc
        rw [hc]
        rfl
      · intro e he
        cases e
        exact he
      · intro t a x cs cs2
        rfl
    simp only [hfind, Option.some.injEq] at h2
    rw [← h2]
    exact countSelOpts_setSelectValue value c hnd

/-- Witness for C9 amended: the concrete distinct-value select keeps at most
one selected option after setting value b. -/
theorem c9_witness :
    (MSHTMLPage.findForm c9pageDistinct).isSome = true ∧
    firstByName c9pageDistinct.doc "t" = some c9selDistinct ∧
    c9selDistinct.tag = "select" ∧
    (optionVals c9selDistinct.children).Nodup ∧
    countSelOpts c9selDistinct.children ≤ 1 ∧
    (∃ page2 : MSHTMLPage, MSHTMLPage.setItem c9pageDistinct "t" "b" = Except.ok page2 ∧
      ∀ c2 : Elem, firstByName page2.doc "t" = some c2 →
        countSelOpts c2.children ≤ 1) :=
  ⟨rfl, rfl, rfl, by decide, by decide,
   c9_select_invariant c9pageDistinct "t" "b" c9selDistinct rfl rfl rfl (by decide)
     (by decide)⟩

theorem stringMk_data (s : String) : String.mk s.data = s := rfl

theorem pipeIdxs_append : ∀ (a b : List Char) (i : Nat),
    pipeIdxs (a ++ b) i = pipeIdxs a i ++ pipeIdxs b (i + a.length)
  | [], b, i => by simp [pipeIdxs]
  | c :: cs, b, i => by
    by_cases h : c = '|' <;>
      simp [pipeIdxs, h, pipeIdxs_append cs b (i + 1), Nat.add_assoc, Nat.add_comm,
        Nat.add_left_comm]

theorem pipeIdxs_nopipe : ∀ (a : List Char) (i : Nat), ¬('|' ∈ a) → pipeIdxs a i = []
  | [], _, _ => rfl
  | c :: cs, i, h => by
    simp only [List.mem_cons, not_or] at h
    have hc : ¬(c = '|') := fun hh => h.1 hh.symm
    simp [pipeIdxs, hc, pipeIdxs_nopipe cs (i + 1) h.2]

theorem pipeIdxs_seg (a : List Char) (ha : ¬('|' ∈ a)) (b : List Char) (i : Nat) :
    pipeIdxs (a ++ '|' :: b) i = (i + a.length) :: pipeIdxs b (i + a.length + 1) := by
  rw [pipeIdxs_append, pipeIdxs_nopipe a i ha]
  simp [pipeIdxs]

theorem pipeIdxs_mem_lt : ∀ (l : List Char) (i x : Nat), x ∈ pipeIdxs l i → x < i + l.length
  | [], i, x, h => by simp [pipeIdxs] at h
  | c :: cs, i, x, h => by
    by_cases hc : c = '|'
    · simp only [pipeIdxs, hc, if_pos, List.mem_cons] at h
      rcases h with h | h
      · subst h
        simp only [List.length_cons]
        omega
      · have := pipeIdxs_mem_lt cs (i + 1) x h
        simp only [List.length_cons]
        omega
    · simp only [pipeIdxs, hc, if_false, ite_false] at h
      have := pipeIdxs_mem_lt cs (i + 1) x h
      simp only [List.length_cons]
      omega

theorem parseStep_cont_length (u : String → String) (buf : List Char) (col : Nat)
    (st : MicrosoftAjaxResponse) (rest : List Char) (col2 : Nat)
    (st2 : MicrosoftAjaxResponse) :
    parseStep u buf col st = StepResult.cont rest col2 st2 → rest.length < buf.length := by
  intro h
  have hne : ¬(buf = []) := by
    intro hb
    subst hb
    unfold parseStep at h
    simp [pipeIdxs] at h
  have hpos : 0 < buf.length := by
    cases buf
    · exact absurd rfl hne
    · simp
  unfold parseStep at h
  split at h
  · dsimp only at h
    split at h
    · exact StepResult.noConfusion h
    · split at h
      · exact StepResult.noConfusion h
      · split at h
        · exact StepResult.noConfusion h
        · split at h
          · split at h
            · injection h with h1 h2 h3
              subst h1
              simpa using hpos
            · exact StepResult.noConfusion h
          · split at h
            · split at h
              · injection h with h1 h2 h3
                subst h1
                have hlen := congrArg List.length ‹List.drop _ _ = _ :: _›
                simp [List.length_drop] at hlen
                omega
              · exact StepResult.noConfusion h
            · exact StepResult.noConfusion h
  · split at h
    · exact StepResult.noConfusion h
    · exact StepResult.noConfusion h

theorem parseLoop_fuel (u : String → String) : ∀ (f g : Nat) (buf : List Char) (col : Nat)
    (st : MicrosoftAjaxResponse), buf.length < f → buf.length < g →
    parseLoop u f buf col st = parseLoop u g buf col st
  | 0, _, buf, _, _, hf, _ => absurd hf (by omega)
  | _ + 1, 0, buf, _, _, _, hg => absurd hg (by omega)
  | f + 1, g + 1, buf, col, st, hf, hg => by
    simp only [parseLoop]
    cases hstep : parseStep u buf col st with
    | done r => rfl
    | fail e => rfl
    | cont rest col2 st2 =>
      have hlt := parseStep_cont_length u buf col st rest col2 st2 hstep
      exact parseLoop_fuel u f g rest col2 st2 (by omega) (by omega)

theorem parseStep_lb (u : String → String) (t : List Char) (col : Nat)
    (st : MicrosoftAjaxResponse) (ht : ∀ c ∈ t, c = '\n' ∨ c = '\r') :
    parseStep u t col st = StepResult.done st := by
  have hnp : ¬('|' ∈ t) := by
    intro hm
    rcases ht _ hm with h | h <;> exact absurd h (by decide)
  have hpipes : pipeIdxs t 0 = [] := pipeIdxs_nopipe t 0 hnp
  have hall : t.all (fun c => c = '\n' || c = '\r') = true := by
    rw [List.all_eq_true]
    intro c hc
    rcases ht c hc with h | h <;> simp [h]
  unfold parseStep
  rw [hpipes]
  dsimp only
  rw [hall]
  rfl

theorem parseStep_record (u : String → String) (r : WireRecord) (rest : List Char)
    (col : Nat) (st : MicrosoftAjaxResponse) (hwf : wfWireRecord r) :
    parseStep u (serRecord r ++ rest) col st =
      match handleRecord u st r.rtype r.rname r.content (col + r.lenStr.data.length + 1) with
      | Except.ok st2 => StepResult.cont rest (col + (serRecord r).length) st2
      | Except.error e => StepResult.fail e := by
  unfold wfWireRecord at hwf
  obtain ⟨ls, ty, nm, ct⟩ := r
  obtain ⟨hL, hT, hN, hlen⟩ := hwf
  have hser : serRecord ⟨ls, ty, nm, ct⟩ ++ rest =
      ls.data ++ '|' :: (ty.data ++ '|' :: (nm.data ++ '|' :: (ct.data ++ '|' :: rest))) := by
    simp [serRecord]
  rw [hser]
  unfold parseStep
  rw [pipeIdxs_seg ls.data hL, pipeIdxs_seg ty.data hT, pipeIdxs_seg nm.data hN]
  simp only [Nat.zero_add]
  rw [List.take_left]
  rw [hlen]
  dsimp only
  rw [if_neg (by omega : ¬((ct.data.length : ℤ) < 0))]
  simp only [Int.toNat_natCast]
  have e2 : List.drop (ls.data.length + 1)
      (ls.data ++ '|' :: (ty.data ++ '|' :: (nm.data ++ '|' :: (ct.data ++ '|' :: rest)))) =
      ty.data ++ '|' :: (nm.data ++ '|' :: (ct.data ++ '|' :: rest)) := by
    rw [show ls.data ++ '|' :: (ty.data ++ '|' :: (nm.data ++ '|' :: (ct.data ++ '|' :: rest))) =
        (ls.data ++ ['|']) ++ (ty.data ++ '|' :: (nm.data ++ '|' :: (ct.data ++ '|' :: rest)))
      from by simp]
    rw [List.drop_left' (by simp)]
  rw [e2]
  rw [show ls.data.length + 1 + ty.data.length - ls.data.length - 1 = ty.data.length
    from by omega]
  rw [List.take_left]
  have e3 : List.drop (ls.data.length + 1 + ty.data.length + 1)
      (ls.data ++ '|' :: (ty.data ++ '|' :: (nm.data ++ '|' :: (ct.data ++ '|' :: rest)))) =
      nm.data ++ '|' :: (ct.data ++ '|' :: rest) := by
    rw [show ls.data ++ '|' :: (ty.data ++ '|' :: (nm.data ++ '|' :: (ct.data ++ '|' :: rest))) =
        (ls.data ++ '|' :: (ty.data ++ ['|'])) ++ (nm.data ++ '|' :: (ct.data ++ '|' :: rest))
      from by simp]
    rw [List.drop_left' (by simp only [List.length_append, List.length_cons, List.length_nil]; omega)]
  rw [e3]
  rw [show ls.data.length + 1 + ty.data.length + 1 + nm.data.length -
      (ls.data.length + 1 + ty.data.length) - 1 = nm.data.length from by omega]
  rw [List.take_left]
  have e4 : List.drop (ls.data.length + 1 + ty.data.length + 1 + nm.data.length + 1)
      (ls.data ++ '|' :: (ty.data ++ '|' :: (nm.data ++ '|' :: (ct.data ++ '|' :: rest)))) =
      ct.data ++ '|' :: rest := by
    rw [show ls.data ++ '|' :: (ty.data ++ '|' :: (nm.data ++ '|' :: (ct.data ++ '|' :: rest))) =
        (ls.data ++ '|' :: (ty.data ++ '|' :: (nm.data ++ ['|']))) ++ (ct.data ++ '|' :: rest)
      from by simp]
    rw [List.drop_left' (by simp only [List.length_append, List.length_cons, List.length_nil]; omega)]
  rw [e4]
  rw [if_neg (by simp only [List.length_append, List.length_cons]; omega :
    ¬(List.length (ct.data ++ '|' :: rest) < ct.data.length))]
  rw [List.take_left]
  rw [List.drop_left]
  dsimp only
  rw [if_pos rfl]
  simp only [stringMk_data]
  cases hh : handleRecord u st ty nm ct (col + ls.data.length + 1) with
  | ok st2 =>
    simp only [hh]
    simp only [StepResult.cont.injEq, true_and, and_true]
    simp only [serRecord, List.length_append, List.length_cons, List.length_nil]
    omega
  | error e => simp [hh]

theorem c8_aux (u : String → String) : ∀ (rs : List WireRecord) (t : List Char)
    (col : Nat) (st : MicrosoftAjaxResponse) (f g : Nat),
    (∀ r ∈ rs, wfWireRecord r) → (∀ c ∈ t, c = '\n' ∨ c = '\r') →
    (serStream rs ++ t).length < f → (serStream rs).length < g →
    parseLoop u f (serStream rs ++ t) col st = parseLoop u g (serStream rs) col st
  | [], t, col, st, f, g, _, ht, hf, hg => by
    cases f with
    | zero => exact absurd hf (by omega)
    | succ f2 =>
      cases g with
      | zero => exact absurd hg (by omega)
      | succ g2 =>
        have h1 : serStream [] ++ t = t := by simp [serStream]
        have h2 : serStream [] = ([] : List Char) := rfl
        rw [h1, h2]
        simp only [parseLoop]
        rw [parseStep_lb u t col st ht]
        rw [parseStep_lb u [] col st (by intro c hc; simp at hc)]
  | r :: rs, t, col, st, f, g, hwf, ht, hf, hg => by
    cases f with
    | zero => exact absurd hf (by omega)
    | succ f2 =>
      cases g with
      | zero => exact absurd hg (by omega)
      | succ g2 =>
        have hser : serStream (r :: rs) = serRecord r ++ serStream rs := by
          simp [serStream]
        have hserT : serStream (r :: rs) ++ t = serRecord r ++ (serStream rs ++ t) := by
          rw [hser, List.append_assoc]
        have hrpos : 1 ≤ (serRecord r).length := by
          simp only [serRecord, List.length_append, List.length_cons, List.length_nil]
          omega
        have hlenT : (serStream (r :: rs) ++ t).length =
            (serRecord r).length + (serStream rs ++ t).length := by
          rw [hserT]
          simp [List.length_append]
        have hlenS : (serStream (r :: rs)).length =
            (serRecord r).length + (serStream rs).length := by
          rw [hser]
          simp [List.length_append]
        rw [hserT, hser]
        simp only [parseLoop]
        rw [parseStep_record u r (serStream rs ++ t) col st (hwf r (by simp))]
        rw [parseStep_record u r (serStream rs) col st (hwf r (by simp))]
        cases hh : handleRecord u st r.rtype r.rname r.content
            (col + r.lenStr.data.length + 1) with
        | ok st2 =>
          dsimp only
          exact c8_aux u rs t (col + (serRecord r).length) st2 f2 g2
            (fun r2 hr2 => hwf r2 (by simp [hr2])) ht (by omega) (by omega)
        | error e => rfl

/-- C8: appending line-break padding after the last complete record of a
delta stream does not change the parse: a stream made of complete
length|type|name|content| records followed by line breaks parses exactly as
the stream without the trailing line breaks (the padding is treated as a
clean end of stream, never as a framing error). -/
theorem c8_trailing_linebreaks (u : String → String) (rs : List WireRecord)
    (t : List Char) (hwf : ∀ r ∈ rs, wfWireRecord r)
    (ht : ∀ c ∈ t, c = '\n' ∨ c = '\r') :
    MicrosoftAjaxResponse.fromchars u (serStream rs ++ t) =
      MicrosoftAjaxResponse.fromchars u (serStream rs) := by
  unfold MicrosoftAjaxResponse.fromchars
  exact c8_aux u rs t 1 {} ((serStream rs ++ t).length + 1) ((serStream rs).length + 1)
    hwf ht (by omega) (by omega)

/-- Witness for C8: a concrete one-record stream with trailing CRLF padding
parses to the same response as without the padding. -/
theorem c8_witness :
    wfWireRecord c8record ∧
    MicrosoftAjaxResponse.fromchars (fun s => s) (serStream [c8record] ++ [ '\n', '\r']) =
      MicrosoftAjaxResponse.fromchars (fun s => s) (serStream [c8record]) :=
  ⟨by decide,
   c8_trailing_linebreaks (fun s => s) [c8record] [ '\n', '\r']
     (by intro r hr; simp at hr; rw [hr]; decide)
     (by intro c hc; simp at hc; rcases hc with h | h <;> simp [h])⟩
